import Mathlib

/-! A shallow embedding of `check_peers.go` and the properties proved of it.

The program scrapes a peer listing (from a URL or a local file), probes every
peer with a one-shot TCP connect, and overwrites `p2p.trusted_peers` in a YAML
configuration file with the peers that answered.

Everything outside the repository (the network, the file system, the YAML and
HTML libraries) is carried by an explicit environment `Env` of oracles and an
explicit `World` (files plus a trace of the effects performed). The functions
of `check_peers.go` are translated one by one over that environment.
-/

set_option autoImplicit false

namespace CheckPeers

/-! ## Data model -/

/-- The `Peer` struct of `check_peers.go` (line 64): two string fields. -/
structure Peer where
  Address : String
  Id : String
deriving DecidableEq, Repr

/-- How a call ends when it does not return normally: an `error` value handed
back to the caller, a run-time `panic`, or a `fatal` exit through `log.Fatal`. -/
inductive Fault where
  | error (msg : String)
  | panic (msg : String)
  | fatal (msg : String)
deriving DecidableEq, Repr

/-- Result of a call: a value, or the fault that ended it. -/
inductive Res (α : Type) where
  | ok (a : α)
  | fail (f : Fault)
deriving DecidableEq, Repr

/-- Effects the program performs on the outside world, in the order performed. -/
inductive Event where
  | print (s : String)
  | httpGet (url : String)
  | readFile (path : String)
  | writeFile (path : String) (data : String)
  | dial (network : String) (address : String)
deriving DecidableEq, Repr

/-- The outside world as the program sees it: the readable files (by path) and
the trace of effects performed so far. -/
structure World where
  files : String → Option String
  trace : List Event

/-- Append one effect to the trace. -/
def World.emit (w : World) (e : Event) : World :=
  { w with trace := w.trace ++ [e] }

/-- Scalars of a decoded YAML document. A float is carried by its bit pattern;
the program never inspects one. -/
inductive Scalar where
  | null
  | bool (b : Bool)
  | int (i : Int)
  | float (bits : Nat)
  | str (s : String)
deriving DecidableEq, Repr

/-- A node of the generic tree `yaml.Unmarshal` builds inside an `interface{}`:
a scalar, a sequence, a `map[interface{}]interface{}` (kept as an association
list; only `lookup` and `assign` below are used on it, so the order of the list
carries no meaning), or the Go value `[]Peer` that line 107 stores in the tree. -/
inductive Value where
  | scalar (s : Scalar)
  | seq (xs : List Value)
  | map (m : List (Scalar × Value))
  | peers (ps : List Peer)

/-- The top-level `map[string]interface{}` that the configuration is decoded into
(line 101). A nil map reads like the empty one. -/
abbrev Doc := List (String × Value)

/-- Go map read `m[k]`: the value bound to `k`, or `none` when `k` is absent. -/
def lookup {κ β : Type} [DecidableEq κ] (k : κ) : List (κ × β) → Option β
  | [] => none
  | (k1, v1) :: rest => if k1 = k then some v1 else lookup k rest

/-- Go map write `m[k] = v`: rebinds `k` when it is present, adds it otherwise. -/
def assign {κ β : Type} [DecidableEq κ] (k : κ) (v : β) : List (κ × β) → List (κ × β)
  | [] => [(k, v)]
  | (k1, v1) :: rest => if k1 = k then (k, v) :: rest else (k1, v1) :: assign k v rest

/-- Outcome of `net.DialTimeout`: an error, an open connection, or (never seen
in practice, but handled at line 89) neither. -/
inductive DialResult where
  | failed (err : String)
  | connected
  | nilConn
deriving DecidableEq, Repr

/-- The fields of `http.Response` the program reads. -/
structure Response where
  StatusCode : Nat
  Status : String
  Body : String
deriving DecidableEq, Repr

/-- A parsed HTML document as goquery exposes it to the program: for a selector,
the `Html()` string of each matching element, in document order. -/
structure Document where
  find : String → List String

/-- Outcome of `ioutil.WriteFile`: the data is on disk, or the call failed with
a message and left the file holding `left`. -/
inductive WriteOutcome where
  | done
  | failed (msg : String) (left : Option String)

/-- The library and operating-system calls the program makes, as oracles. -/
structure Env where
  /-- Oracle `net.DialTimeout(network, address, time.Second)`. -/
  dial : String → String → DialResult
  /-- Oracle `parseAuthority` of `net/url`: `none` when the authority is accepted. -/
  parseAuthority : String → Option String
  /-- Oracle `http.Get`. -/
  httpGet : String → Except String Response
  /-- Oracle `goquery.NewDocumentFromReader` on a response body. -/
  newDocumentFromReader : String → Except String Document
  /-- Oracle `html.UnescapeString`. -/
  unescapeString : String → String
  /-- Oracle `yaml.Unmarshal` into a `map[string][]Peer`. -/
  unmarshalPeers : String → Except String (List (String × List Peer))
  /-- Oracle `yaml.Unmarshal` into a `map[string]interface{}`. -/
  unmarshalDoc : String → Except String Doc
  /-- Oracle `yaml.Marshal` of the configuration tree. -/
  marshalDoc : Doc → Except String String
  /-- Oracle `ioutil.WriteFile(path, data, 0644)`. -/
  writeFile : String → String → WriteOutcome

/-! ## `Peer.tcpping` (lines 69-90) -/

/-- Pieces of a character list between occurrences of `sep`; there is always at
least one piece. -/
def splitChars (sep : Char) : List Char → List (List Char)
  | [] => [[]]
  | c :: cs =>
    if c = sep then [] :: splitChars sep cs
    else
      match splitChars sep cs with
      | [] => [[c]]
      | seg :: rest => (c :: seg) :: rest

/-- Go `strings.Split(s, sep)` for a one-character separator. -/
def Split (s : String) (sep : Char) : List String :=
  (splitChars sep s.toList).map String.mk

/-- Go `net.JoinHostPort`: a host with a colon in it is bracketed. -/
def JoinHostPort (host port : String) : String :=
  if ':' ∈ host.toList then "[" ++ host ++ "]:" ++ port else host ++ ":" ++ port

/-- Lines 71-73 of `tcpping`: split the address on `/`, take element 2 as host
and the last element as port. An index outside the slice panics. -/
def hostPort (p : Peer) : Res (String × String) :=
  let sourceStr := Split p.Address '/'
  match sourceStr[2]? with
  | none => .fail (.panic "runtime error: index out of range")
  | some host =>
    match sourceStr[sourceStr.length - 1]? with
    | none => .fail (.panic "runtime error: index out of range")
    | some port => .ok (host, port)

/-- The method `tcpping` (lines 69-90): dial `host:port` over TCP; an error is
printed and gives `false`, a connection is printed and gives `true`. -/
def tcpping (env : Env) (p : Peer) (w : World) : Res Bool × World :=
  match hostPort p with
  | .fail f => (.fail f, w)
  | .ok (host, port) =>
    let address := JoinHostPort host port
    let w1 := w.emit (.dial "tcp" address)
    match env.dial "tcp" address with
    | .failed err => (.ok false, w1.emit (.print ("[ERR] " ++ err ++ "\r\n")))
    | .connected => (.ok true, w1.emit (.print ("[OK] " ++ host ++ "\r\n")))
    | .nilConn => (.ok false, w1)

/-- The probing loop of `main` (lines 45-51): `trustedPeers` grows by every peer
whose `tcpping` returns `true`; a panic inside `tcpping` ends the run. -/
def probeLoop (env : Env) : List Peer → List Peer → World → Res (List Peer) × World
  | [], trustedPeers, w => (.ok trustedPeers, w)
  | peer :: rest, trustedPeers, w =>
    match tcpping env peer w with
    | (.fail f, w1) => (.fail f, w1)
    | (.ok true, w1) => probeLoop env rest (trustedPeers ++ [peer]) w1
    | (.ok false, w1) => probeLoop env rest trustedPeers w1

/-! ## `updateTrustedPeers` (lines 93-121) -/

/-- Line 107, `y["p2p"].(map[interface{}]interface{})["trusted_peers"] = *trustedPeers`:
the type assertion panics when `p2p` is absent (a nil interface) or is not a
mapping; otherwise the inner map, which `y` still refers to, gets the new entry.
The decoder builds a fresh map for every mapping node, so no other place of the
tree shares it. -/
def assignTrustedPeers (y : Doc) (trustedPeers : List Peer) : Res Doc :=
  match lookup "p2p" y with
  | none =>
    .fail (.panic "interface conversion: interface \x7b\x7d is nil, not map[interface \x7b\x7d]interface \x7b\x7d")
  | some (.map m) =>
    .ok (assign "p2p" (.map (assign (.str "trusted_peers") (.peers trustedPeers) m)) y)
  | some _ =>
    .fail (.panic "interface conversion: interface \x7b\x7d is not map[interface \x7b\x7d]interface \x7b\x7d")

/-- Lines 109-120: encode the tree and write it over the configuration file. -/
def marshalAndWrite (env : Env) (nodeConfigFile : String) (y : Doc) (w : World) :
    Res Unit × World :=
  match env.marshalDoc y with
  | .error err => (.fail (.error ("marshal yaml: " ++ err)), w)
  | .ok b =>
    let w1 := w.emit (.writeFile nodeConfigFile b)
    match env.writeFile nodeConfigFile b with
    | .failed err left =>
      (.fail (.error ("io write yaml: " ++ err)),
        { w1 with files := fun q => if q = nodeConfigFile then left else w1.files q })
    | .done =>
      (.ok (), { w1 with files := fun q => if q = nodeConfigFile then some b else w1.files q })

/-- The function `updateTrustedPeers` (lines 93-121): read the configuration,
decode it, replace `p2p.trusted_peers`, encode, write back. -/
def updateTrustedPeers (env : Env) (nodeConfigFile : String) (trustedPeers : List Peer)
    (w : World) : Res Unit × World :=
  let w1 := w.emit (.readFile nodeConfigFile)
  match w1.files nodeConfigFile with
  | none =>
    (.fail (.error ("read yaml: open " ++ nodeConfigFile ++ ": no such file or directory")), w1)
  | some yamlFile =>
    match env.unmarshalDoc yamlFile with
    | .error err => (.fail (.error ("unmarshal yaml: " ++ err)), w1)
    | .ok y =>
      match assignTrustedPeers y trustedPeers with
      | .fail f => (.fail f, w1)
      | .ok y1 => marshalAndWrite env nodeConfigFile y1 w1

/-! ## `scrapeWorkingPeers` (lines 124-183) -/

/-- Go `stringContainsCTLByte` of `net/url`: a byte below space, or DEL. -/
def containsCTL (s : List Char) : Bool :=
  s.any (fun c => decide (c.toNat < 0x20) || decide (c.toNat = 0x7f))

/-- Letters, which may stand anywhere in a URL scheme. -/
def isSchemeLetter (c : Char) : Bool :=
  (decide ('a' ≤ c) && decide (c ≤ 'z')) || (decide ('A' ≤ c) && decide (c ≤ 'Z'))

/-- Digits and `+ - .`, which may stand in a URL scheme after its first character. -/
def isSchemeOther (c : Char) : Bool :=
  (decide ('0' ≤ c) && decide (c ≤ '9')) || c = '+' || c = '-' || c = '.'

/-- Go `getScheme` of `net/url`, scanning from position `i`: the scheme and what
follows its colon, or no scheme and the whole text. -/
def getSchemeFrom (rawURL : List Char) : Nat → List Char → Except String (List Char × List Char)
  | _, [] => .ok ([], rawURL)
  | i, c :: cs =>
    if isSchemeLetter c then getSchemeFrom rawURL (i + 1) cs
    else if isSchemeOther c then
      if i = 0 then .ok ([], rawURL) else getSchemeFrom rawURL (i + 1) cs
    else if c = ':' then
      if i = 0 then .error "missing protocol scheme"
      else .ok (rawURL.take i, rawURL.drop (i + 1))
    else .ok ([], rawURL)

/-- Go `getScheme` of `net/url`. -/
def getScheme (rawURL : List Char) : Except String (List Char × List Char) :=
  getSchemeFrom rawURL 0 rawURL

/-- Hexadecimal digit, as `ishex` of `net/url`. -/
def ishex (c : Char) : Bool :=
  (decide ('0' ≤ c) && decide (c ≤ '9')) || (decide ('a' ≤ c) && decide (c ≤ 'f')) ||
    (decide ('A' ≤ c) && decide (c ≤ 'F'))

/-- The check `setPath` of `net/url` makes on a path: every `%` is followed by
two hexadecimal digits. -/
def validEscapes : List Char → Bool
  | [] => true
  | '%' :: a :: b :: rest => ishex a && ishex b && validEscapes rest
  | '%' :: _ => false
  | _ :: rest => validEscapes rest

/-- Go `url.ParseRequestURI` of `net/url`, as far as its error result goes
(`none`: no error): the text is read as an absolute URI or as an absolute path
(one that starts with `/`); anything else is refused. -/
def ParseRequestURI (env : Env) (rawURL : String) : Option String :=
  let raw := rawURL.toList
  if containsCTL raw then some "net/url: invalid control character in URL"
  else if raw = [] then some "empty url"
  else if raw = ['*'] then none
  else
    match getScheme raw with
    | .error err => some err
    | .ok (scheme, afterScheme) =>
      let rest := afterScheme.takeWhile (fun c => c ≠ '?')
      if rest.head? ≠ some '/' then
        if scheme ≠ [] then none else some "invalid URI for request"
      else if scheme ≠ [] ∧ (rest.drop 1).head? = some '/' then
        let afterSlashes := rest.drop 2
        let authority := afterSlashes.takeWhile (fun c => c ≠ '/')
        let path := afterSlashes.dropWhile (fun c => c ≠ '/')
        match env.parseAuthority (String.mk authority) with
        | some err => some err
        | none => if validEscapes path then none else some "invalid URL escape"
      else if validEscapes rest then none else some "invalid URL escape"

/-- The callback loop of lines 155-157: every match overwrites `scrapedText`
with its `Html()`. -/
def eachHtml : List String → String → String
  | [], scrapedText => scrapedText
  | s :: rest, _ => eachHtml rest s

/-- Lines 125-166 of `scrapeWorkingPeers`: obtain `scrapedText` over HTTP when
`scrapeFrom` passes `url.ParseRequestURI`, from the local file otherwise. -/
def scrapeText (env : Env) (scrapeFrom : String) (w : World) : Res String × World :=
  match ParseRequestURI env scrapeFrom with
  | none =>
    let w1 := w.emit (.httpGet scrapeFrom)
    match env.httpGet scrapeFrom with
    | .error err => (.fail (.error err), w1)
    | .ok res =>
      if res.StatusCode ≠ 200 then (.fail (.error ("web page status: " ++ res.Status)), w1)
      else
        match env.newDocumentFromReader res.Body with
        | .error err => (.fail (.error ("goquery: " ++ err)), w1)
        | .ok doc => (.ok (eachHtml (doc.find "textarea.form-control") ""), w1)
  | some _ =>
    let w1 := w.emit (.readFile scrapeFrom)
    match w1.files scrapeFrom with
    | none => (.fail (.error ("open " ++ scrapeFrom ++ ": no such file or directory")), w1)
    | some b => (.ok b, w1)

/-- Lines 172-176: put the text under the key `peers` and decode it. -/
def wrapAndParse (env : Env) (scrapedText : String) : Except String (List (String × List Peer)) :=
  env.unmarshalPeers ("peers:\n" ++ env.unescapeString scrapedText)

/-- The function `scrapeWorkingPeers` (lines 124-183); the peers it stores through
its pointer argument are returned. -/
def scrapeWorkingPeers (env : Env) (scrapeFrom : String) (w : World) :
    Res (List Peer) × World :=
  match scrapeText env scrapeFrom w with
  | (.fail f, w1) => (.fail f, w1)
  | (.ok scrapedText, w1) =>
    if scrapedText = "" then (.fail (.error "scraped peer list is empty"), w1)
    else
      match wrapAndParse env scrapedText with
      | .error err => (.fail (.error ("unmarshal yaml: " ++ err)), w1)
      | .ok p => (.ok ((lookup "peers" p).getD []), w1)

/-! ## `main` (lines 27-62) -/

/-- The two command-line flags, held by the package variables of lines 20-23. -/
structure Flags where
  nodeConfigFile : String := "node-config.yaml"
  scrapeFrom : String := "https://adapools.org/peers"

/-- What `log.Fatal(err)` makes of a fault: a returned error ends the run as
fatal, a panic stays a panic. -/
def logFatal : Fault → Fault
  | .error msg => .fatal msg
  | f => f

/-- The function `main` (lines 27-62). -/
def main (env : Env) (flags : Flags) (w : World) : Res Unit × World :=
  let w0 := w.emit (.print ("# Scraping peers from " ++ flags.scrapeFrom ++ "\n"))
  match scrapeWorkingPeers env flags.scrapeFrom w0 with
  | (.fail f, w1) => (.fail (logFatal f), w1)
  | (.ok workingPeers, w1) =>
    let w2 := w1.emit (.print "# Connecting to peers\n")
    match probeLoop env workingPeers [] w2 with
    | (.fail f, w3) => (.fail f, w3)
    | (.ok trustedPeers, w3) =>
      if trustedPeers.length < 1 then (.fail (.fatal "empty peers"), w3)
      else
        match updateTrustedPeers env flags.nodeConfigFile trustedPeers w3 with
        | (.fail f, w4) => (.fail (logFatal f), w4)
        | (.ok _, w4) =>
          (.ok (), w4.emit (.print ("# Working peers list has been updated in " ++
            flags.nodeConfigFile ++ "\n")))

/-! ## A concrete environment, used to run the definitions -/

/-- The `p2p` mapping of the configuration the demo environment decodes. -/
def demoP2p : List (Scalar × Value) :=
  [(.str "public_address", .scalar (.str "/ip4/1.2.3.4/tcp/3000")),
   (.str "trusted_peers", .seq [])]

/-- The configuration the demo environment decodes from `cfg`: a `p2p` mapping
with an empty `trusted_peers` list, next to an unrelated key. -/
def demoDoc : Doc :=
  [("log", .scalar (.str "info")), ("p2p", .map demoP2p)]

/-- An environment in which only `127.0.0.1:3000` accepts connections and every
library call succeeds on the few inputs given. -/
def demoEnv : Env where
  dial := fun _ address => if address = "127.0.0.1:3000" then .connected else .failed "connection refused"
  parseAuthority := fun _ => none
  httpGet := fun _ => .ok ⟨200, "200 OK", "<html/>"⟩
  newDocumentFromReader := fun _ =>
    .ok ⟨fun sel => if sel = "textarea.form-control" then ["first", "second"] else []⟩
  unescapeString := fun s => s
  unmarshalPeers := fun s =>
    if s = "peers:\nA" then .ok [("peers", [⟨"/ip4/127.0.0.1/tcp/3000", "a"⟩])]
    else if s = "peers:\nB" then .ok [("peers", [⟨"/ip4/127.0.0.1/tcp/65000", "deadbeef"⟩])]
    else .error "cannot unmarshal"
  unmarshalDoc := fun s =>
    if s = "cfg" then .ok demoDoc
    else if s = "nop2p" then .ok [("log", .scalar (.str "info"))]
    else .error "cannot unmarshal"
  marshalDoc := fun _ => .ok "new"
  writeFile := fun _ _ => .done

/-- A world with a configuration file, two listing files and an empty trace. -/
def demoWorld : World where
  files := fun q =>
    if q = "node-config.yaml" then some "cfg"
    else if q = "bad-config.yaml" then some "nop2p"
    else if q = "peers.txt" then some "A"
    else if q = "dead.txt" then some "B"
    else none
  trace := []

/-! ## Vocabulary of the statements -/

/-- Between world `w` and the later world `w1` no file changed and no write was
attempted. -/
def NothingWritten (w w1 : World) : Prop :=
  w1.files = w.files ∧
    ∀ path data, Event.writeFile path data ∈ w1.trace → Event.writeFile path data ∈ w.trace

/-- The verdict `tcpping` draws from a dial outcome (lines 77-89). -/
def verdict : DialResult → Bool
  | .connected => true
  | _ => false

/-! ## Supporting lemmas -/

theorem NothingWritten.refl (w : World) : NothingWritten w w :=
  ⟨rfl, fun _ _ h => h⟩

theorem NothingWritten.trans {w w1 w2 : World} (h1 : NothingWritten w w1)
    (h2 : NothingWritten w1 w2) : NothingWritten w w2 :=
  ⟨h2.1.trans h1.1, fun path data h => h1.2 path data (h2.2 path data h)⟩

theorem nothingWritten_emit (w : World) (e : Event)
    (he : ∀ path data, e ≠ Event.writeFile path data) : NothingWritten w (w.emit e) := by
  refine ⟨rfl, fun path data h => ?_⟩
  simp only [World.emit, List.mem_append, List.mem_singleton] at h
  rcases h with h | h
  · exact h
  · exact absurd h.symm (he path data)

theorem splitChars_ne_nil (sep : Char) (cs : List Char) : splitChars sep cs ≠ [] := by
  induction cs with
  | nil => simp [splitChars]
  | cons c cs ih =>
    unfold splitChars
    split
    · simp
    · split
      · simp
      · simp

theorem splitChars_eq_splitOn (sep : Char) (cs : List Char) :
    splitChars sep cs = cs.splitOn sep := by
  induction cs with
  | nil => simp [splitChars]
  | cons c cs ih =>
    unfold splitChars
    rw [List.splitOn, List.splitOnP_cons]
    by_cases h : c = sep
    · simp [h, ih, List.splitOn]
    · have hne := splitChars_ne_nil sep cs
      simp only [h, if_false, beq_iff_eq]
      rw [← List.splitOn, ← ih]
      cases hsp : splitChars sep cs with
      | nil => exact absurd hsp hne
      | cons seg rest => simp [List.modifyHead]

theorem Split_length_pos (s : String) (sep : Char) : 0 < (Split s sep).length := by
  have := splitChars_ne_nil sep s.toList
  simp only [Split, List.length_map]
  exact List.length_pos.mpr this

theorem splitChars_no_sep (sep : Char) (cs : List Char) :
    ∀ seg ∈ splitChars sep cs, sep ∉ seg := by
  induction cs with
  | nil => simp [splitChars]
  | cons c cs ih =>
    unfold splitChars
    by_cases h : c = sep
    · simp only [h, if_true, List.mem_cons]
      rintro seg (rfl | hseg)
      · simp
      · exact ih seg hseg
    · simp only [h, if_false]
      cases hsp : splitChars sep cs with
      | nil => exact absurd hsp (splitChars_ne_nil sep cs)
      | cons seg0 rest =>
        rw [hsp] at ih
        simp only [List.mem_cons]
        rintro seg (rfl | hseg)
        · intro hin
          rcases List.mem_cons.mp hin with hc | hc
          · exact h hc.symm
          · exact ih seg0 (List.mem_cons_self _ _) hc
        · exact ih seg (List.mem_cons_of_mem _ hseg)

/-- The list `Split s sep` is the list of `sep`-delimited segments of `s`: joined
with `sep` they give `s` back, and none of them contains `sep`. -/
theorem Split_segments (s : String) (sep : Char) :
    [sep].intercalate ((Split s sep).map String.toList) = s.toList ∧
      ∀ seg ∈ Split s sep, sep ∉ seg.toList := by
  have hmap : (Split s sep).map String.toList = splitChars sep s.toList := by
    simp only [Split, List.map_map]
    have : (String.toList ∘ String.mk) = id := by
      funext l; rfl
    rw [this, List.map_id]
  constructor
  · rw [hmap, splitChars_eq_splitOn]; exact List.intercalate_splitOn s.toList sep
  · intro seg hseg
    have hmem : seg.toList ∈ splitChars sep s.toList := by
      rw [← hmap]; exact List.mem_map_of_mem _ hseg
    exact splitChars_no_sep sep s.toList _ hmem

/-- Conversely, segments free of `sep` joined with `sep` are recovered by `Split`. -/
theorem Split_join (segs : List (List Char)) (sep : Char) (hne : segs ≠ [])
    (hs : ∀ seg ∈ segs, sep ∉ seg) :
    Split (String.mk ([sep].intercalate segs)) sep = segs.map String.mk := by
  simp only [Split, splitChars_eq_splitOn]
  show List.map String.mk (List.splitOn sep ([sep].intercalate segs)) = _
  rw [List.splitOn_intercalate segs sep hs hne]

theorem hostPort_ok_of_length (p : Peer) (h : 3 ≤ (Split p.Address '/').length) :
    ∃ host port, (Split p.Address '/')[2]? = some host ∧
      (Split p.Address '/')[(Split p.Address '/').length - 1]? = some port ∧
      hostPort p = .ok (host, port) := by
  have h2 : 2 < (Split p.Address '/').length := by omega
  have hl : (Split p.Address '/').length - 1 < (Split p.Address '/').length := by omega
  refine ⟨(Split p.Address '/')[2], (Split p.Address '/')[(Split p.Address '/').length - 1],
    List.getElem?_eq_getElem h2, List.getElem?_eq_getElem hl, ?_⟩
  simp only [hostPort, List.getElem?_eq_getElem h2, List.getElem?_eq_getElem hl]

theorem tcpping_of_hostPort (env : Env) (p : Peer) (w : World) (host port : String)
    (h : hostPort p = .ok (host, port)) :
    (tcpping env p w).1 = .ok (verdict (env.dial "tcp" (JoinHostPort host port))) ∧
      NothingWritten w (tcpping env p w).2 ∧
      ∃ out, (tcpping env p w).2.trace =
          w.trace ++ Event.dial "tcp" (JoinHostPort host port) :: out ∧
        ∀ e ∈ out, ∃ line, e = Event.print line := by
  have hd : NothingWritten w (w.emit (.dial "tcp" (JoinHostPort host port))) :=
    nothingWritten_emit _ _ (fun _ _ hc => by cases hc)
  simp only [tcpping, h]
  cases hdial : env.dial "tcp" (JoinHostPort host port) with
  | failed err =>
    refine ⟨rfl, hd.trans (nothingWritten_emit _ _ (fun _ _ hc => by cases hc)),
      [Event.print ("[ERR] " ++ err ++ "\r\n")], ?_, ?_⟩
    · simp [World.emit]
    · intro e he; exact ⟨_, List.mem_singleton.mp he⟩
  | connected =>
    refine ⟨rfl, hd.trans (nothingWritten_emit _ _ (fun _ _ hc => by cases hc)),
      [Event.print ("[OK] " ++ host ++ "\r\n")], ?_, ?_⟩
    · simp [World.emit]
    · intro e he; exact ⟨_, List.mem_singleton.mp he⟩
  | nilConn =>
    refine ⟨rfl, hd, [], ?_, ?_⟩
    · simp [World.emit]
    · intro e he; cases he

theorem tcpping_nothingWritten (env : Env) (p : Peer) (w : World) :
    NothingWritten w (tcpping env p w).2 := by
  cases h : hostPort p with
  | fail f => simp only [tcpping, h]; exact NothingWritten.refl w
  | ok hp =>
    obtain ⟨host, port⟩ := hp
    exact (tcpping_of_hostPort env p w host port h).2.1

theorem probeLoop_nothingWritten (env : Env) (ws : List Peer) :
    ∀ (acc : List Peer) (w : World), NothingWritten w (probeLoop env ws acc w).2 := by
  induction ws with
  | nil => intro acc w; exact NothingWritten.refl w
  | cons peer rest ih =>
    intro acc w
    have ht := tcpping_nothingWritten env peer w
    unfold probeLoop
    rcases hres : tcpping env peer w with ⟨r, w1⟩
    rw [hres] at ht
    cases r with
    | fail f => exact ht
    | ok b =>
      cases b with
      | true => exact ht.trans (ih _ _)
      | false => exact ht.trans (ih _ _)

theorem probeLoop_filter (env : Env) (probe : Peer → Bool) (ws : List Peer) :
    (∀ p ∈ ws, ∀ w, (tcpping env p w).1 = .ok (probe p)) →
    ∀ (acc : List Peer) (w : World),
      (probeLoop env ws acc w).1 = .ok (acc ++ ws.filter probe) := by
  induction ws with
  | nil => intro _ acc w; simp [probeLoop]
  | cons peer rest ih =>
    intro h acc w
    have hp := h peer (List.mem_cons_self _ _) w
    have hrest := ih (fun p hp w => h p (List.mem_cons_of_mem _ hp) w)
    unfold probeLoop
    rcases hres : tcpping env peer w with ⟨r, w1⟩
    rw [hres] at hp
    simp only at hp
    subst hp
    cases hb : probe peer with
    | true => simp [hrest, List.filter_cons, hb]
    | false => simp [hrest, List.filter_cons, hb]

theorem scrapeText_nothingWritten (env : Env) (scrapeFrom : String) (w : World) :
    NothingWritten w (scrapeText env scrapeFrom w).2 := by
  have hget : NothingWritten w (w.emit (.httpGet scrapeFrom)) :=
    nothingWritten_emit _ _ (fun _ _ hc => by cases hc)
  have hread : NothingWritten w (w.emit (.readFile scrapeFrom)) :=
    nothingWritten_emit _ _ (fun _ _ hc => by cases hc)
  unfold scrapeText
  cases ParseRequestURI env scrapeFrom with
  | none =>
    simp only
    cases env.httpGet scrapeFrom with
    | error err => exact hget
    | ok res =>
      simp only
      split
      · exact hget
      · cases env.newDocumentFromReader res.Body with
        | error err => exact hget
        | ok doc => exact hget
  | some err =>
    simp only
    cases (w.emit (.readFile scrapeFrom)).files scrapeFrom with
    | none => exact hread
    | some b => exact hread

theorem scrapeWorkingPeers_nothingWritten (env : Env) (scrapeFrom : String) (w : World) :
    NothingWritten w (scrapeWorkingPeers env scrapeFrom w).2 := by
  have ht := scrapeText_nothingWritten env scrapeFrom w
  unfold scrapeWorkingPeers
  rcases hres : scrapeText env scrapeFrom w with ⟨r, w1⟩
  rw [hres] at ht
  cases r with
  | fail f => exact ht
  | ok scrapedText =>
    simp only
    split
    · exact ht
    · cases wrapAndParse env scrapedText with
      | error err => exact ht
      | ok p => exact ht

theorem scrapeText_of_accepted (env : Env) (scrapeFrom : String)
    (hu : ParseRequestURI env scrapeFrom = none) (w w2 : World) :
    (scrapeText env scrapeFrom w).1 = (scrapeText env scrapeFrom w2).1 ∧
      (scrapeText env scrapeFrom w).2 = w.emit (.httpGet scrapeFrom) := by
  simp only [scrapeText, hu]
  cases env.httpGet scrapeFrom with
  | error err => exact ⟨rfl, rfl⟩
  | ok res =>
    simp only
    split
    · exact ⟨rfl, rfl⟩
    · cases env.newDocumentFromReader res.Body with
      | error err => exact ⟨rfl, rfl⟩
      | ok doc => exact ⟨rfl, rfl⟩

theorem scrapeWorkingPeers_of_accepted (env : Env) (scrapeFrom : String)
    (hu : ParseRequestURI env scrapeFrom = none) (w w2 : World) :
    (scrapeWorkingPeers env scrapeFrom w).1 = (scrapeWorkingPeers env scrapeFrom w2).1 ∧
      (scrapeWorkingPeers env scrapeFrom w).2 = w.emit (.httpGet scrapeFrom) := by
  have ht := scrapeText_of_accepted env scrapeFrom hu w w2
  have ht2 := (scrapeText_of_accepted env scrapeFrom hu w2 w).2
  unfold scrapeWorkingPeers
  rcases hres : scrapeText env scrapeFrom w with ⟨r, w1⟩
  rcases hres2 : scrapeText env scrapeFrom w2 with ⟨r2, w3⟩
  rw [hres, hres2] at ht
  rw [hres2] at ht2
  obtain ⟨hr, hw⟩ := ht
  simp only at hr hw ht2
  subst hr hw ht2
  cases r with
  | fail f => exact ⟨rfl, rfl⟩
  | ok scrapedText =>
    simp only
    split
    · exact ⟨rfl, rfl⟩
    · cases wrapAndParse env scrapedText with
      | error err => exact ⟨rfl, rfl⟩
      | ok p => exact ⟨rfl, rfl⟩

theorem lookup_assign_self {κ β : Type} [DecidableEq κ] (k : κ) (v : β) (m : List (κ × β)) :
    lookup k (assign k v m) = some v := by
  induction m with
  | nil => simp [assign, lookup]
  | cons kv rest ih =>
    obtain ⟨k1, v1⟩ := kv
    by_cases h : k1 = k
    · simp [assign, lookup, h]
    · simp [assign, lookup, h, ih]

theorem lookup_assign_other {κ β : Type} [DecidableEq κ] (k k2 : κ) (v : β)
    (m : List (κ × β)) (hk : k2 ≠ k) : lookup k2 (assign k v m) = lookup k2 m := by
  induction m with
  | nil => simp [assign, lookup, Ne.symm hk]
  | cons kv rest ih =>
    obtain ⟨k1, v1⟩ := kv
    by_cases h : k1 = k
    · subst h
      simp [assign, lookup, Ne.symm hk]
    · by_cases h2 : k1 = k2
      · subst h2
        simp [assign, lookup, h]
      · simp [assign, lookup, h, h2, ih]

theorem assign_keys_of_present {κ β : Type} [DecidableEq κ] (k : κ) (v : β)
    (m : List (κ × β)) (h : (lookup k m).isSome) :
    (assign k v m).map Prod.fst = m.map Prod.fst := by
  induction m with
  | nil => simp [lookup] at h
  | cons kv rest ih =>
    obtain ⟨k1, v1⟩ := kv
    by_cases hk : k1 = k
    · simp [assign, hk]
    · simp only [lookup, hk, if_false] at h
      simp [assign, hk, ih h]

theorem assign_keys {κ β : Type} [DecidableEq κ] (k : κ) (v : β) (m : List (κ × β)) :
    (assign k v m).map Prod.fst = m.map Prod.fst ∨
      (assign k v m).map Prod.fst = m.map Prod.fst ++ [k] := by
  induction m with
  | nil => right; simp [assign]
  | cons kv rest ih =>
    obtain ⟨k1, v1⟩ := kv
    by_cases hk : k1 = k
    · left; simp [assign, hk]
    · rcases ih with ih | ih
      · left; simp [assign, hk, ih]
      · right; simp [assign, hk, ih]

theorem assignTrustedPeers_of_map (y : Doc) (ps : List Peer) (m : List (Scalar × Value))
    (hm : lookup "p2p" y = some (.map m)) :
    assignTrustedPeers y ps =
      .ok (assign "p2p" (.map (assign (.str "trusted_peers") (.peers ps) m)) y) := by
  simp only [assignTrustedPeers, hm]

theorem updateTrustedPeers_of_map (env : Env) (nodeConfigFile : String) (ps : List Peer)
    (w : World) (yamlFile : String) (y : Doc) (m : List (Scalar × Value))
    (hr : w.files nodeConfigFile = some yamlFile) (hu : env.unmarshalDoc yamlFile = .ok y)
    (hm : lookup "p2p" y = some (.map m)) :
    updateTrustedPeers env nodeConfigFile ps w =
      marshalAndWrite env nodeConfigFile
        (assign "p2p" (.map (assign (.str "trusted_peers") (.peers ps) m)) y)
        (w.emit (.readFile nodeConfigFile)) := by
  have hr1 : (w.emit (.readFile nodeConfigFile)).files nodeConfigFile = some yamlFile := hr
  simp only [updateTrustedPeers, hr1, hu, assignTrustedPeers_of_map y ps m hm]

theorem eachHtml_eq_getLast (ms : List String) (hne : ms ≠ []) (scrapedText : String) :
    eachHtml ms scrapedText = ms.getLast hne := by
  induction ms generalizing scrapedText with
  | nil => exact absurd rfl hne
  | cons s rest ih =>
    cases rest with
    | nil => simp [eachHtml]
    | cons s2 rest2 =>
      rw [eachHtml, ih (List.cons_ne_nil _ _)]
      simp [List.getLast_cons]

/-! ## The probing phase -/

/-- C1: when `tcpping` answers `probe p` on every candidate `p`, the
`trustedPeers` list built by the probing loop of `main` is the candidates filtered
by `probe`: the peers that answered, in their original order, duplicates kept. It
is a sublist of the candidates and holds no peer whose probe returned `false`. -/
theorem trustedPeers_eq_filter (env : Env) (probe : Peer → Bool) (workingPeers : List Peer)
    (w : World) (h : ∀ p ∈ workingPeers, ∀ w1, (tcpping env p w1).1 = .ok (probe p)) :
    (probeLoop env workingPeers [] w).1 = .ok (workingPeers.filter probe) ∧
      (workingPeers.filter probe).Sublist workingPeers ∧
      ∀ p ∈ workingPeers.filter probe, p ∈ workingPeers ∧ probe p = true := by
  refine ⟨?_, List.filter_sublist _, fun p hp => List.mem_filter.mp hp⟩
  simpa using probeLoop_filter env probe workingPeers h [] w

theorem trustedPeers_eq_filter_witness :
    (∀ p ∈ [(⟨"/ip4/127.0.0.1/tcp/3000", "a"⟩ : Peer), ⟨"/ip4/127.0.0.1/tcp/65000", "b"⟩,
        ⟨"/ip4/127.0.0.1/tcp/3000", "a"⟩],
      ∀ w1, (tcpping demoEnv p w1).1 = .ok (decide (p.Address = "/ip4/127.0.0.1/tcp/3000"))) ∧
    (probeLoop demoEnv [⟨"/ip4/127.0.0.1/tcp/3000", "a"⟩, ⟨"/ip4/127.0.0.1/tcp/65000", "b"⟩,
        ⟨"/ip4/127.0.0.1/tcp/3000", "a"⟩] [] demoWorld).1 =
      .ok [⟨"/ip4/127.0.0.1/tcp/3000", "a"⟩, ⟨"/ip4/127.0.0.1/tcp/3000", "a"⟩] := by
  have hyp : ∀ p ∈ [(⟨"/ip4/127.0.0.1/tcp/3000", "a"⟩ : Peer),
      ⟨"/ip4/127.0.0.1/tcp/65000", "b"⟩, ⟨"/ip4/127.0.0.1/tcp/3000", "a"⟩],
      ∀ w1, (tcpping demoEnv p w1).1 =
        .ok (decide (p.Address = "/ip4/127.0.0.1/tcp/3000")) := by
    intro p hp w1
    simp only [List.mem_cons, List.mem_singleton, List.not_mem_nil, or_false] at hp
    rcases hp with rfl | rfl | rfl <;> rfl
  exact ⟨hyp, (trustedPeers_eq_filter demoEnv
    (fun p => decide (p.Address = "/ip4/127.0.0.1/tcp/3000")) _ demoWorld hyp).1⟩

/-- C3 (as the code behaves): for a peer whose address splits on `/` into fewer
than 3 segments, `tcpping` does not return `false`; it panics on the index
expression `sourceStr[2]` and leaves the world as it was. -/
theorem tcpping_short_address_panics (env : Env) (p : Peer) (w : World)
    (h : (Split p.Address '/').length < 3) :
    tcpping env p w = (.fail (.panic "runtime error: index out of range"), w) ∧
      (tcpping env p w).1 ≠ .ok false := by
  have hnone : (Split p.Address '/')[2]? = none := List.getElem?_eq_none (by omega)
  have heq : tcpping env p w = (.fail (.panic "runtime error: index out of range"), w) := by
    simp only [tcpping, hostPort, hnone]
  refine ⟨heq, ?_⟩
  rw [heq]
  intro hc
  cases hc

theorem tcpping_short_address_panics_witness :
    (Split (Peer.mk "/ip4" "deadbeef").Address '/').length < 3 ∧
      tcpping demoEnv ⟨"/ip4", "deadbeef"⟩ demoWorld =
        (.fail (.panic "runtime error: index out of range"), demoWorld) ∧
      (tcpping demoEnv ⟨"/ip4", "deadbeef"⟩ demoWorld).1 ≠ .ok false :=
  ⟨by decide, tcpping_short_address_panics demoEnv ⟨"/ip4", "deadbeef"⟩ demoWorld (by decide)⟩

/-- C4: for a peer whose address has at least 4 slash-delimited segments, both
index expressions of `tcpping` are in bounds, the host is segment 2 of the split
address and the port is its last segment, and the one connection `tcpping` opens
is a TCP dial of that host and port, whose outcome decides the result. -/
theorem tcpping_dials_segment_two_and_last (env : Env) (p : Peer) (w : World)
    (h : 4 ≤ (Split p.Address '/').length) :
    ∃ host port out,
      (Split p.Address '/')[2]? = some host ∧
      (Split p.Address '/').getLast? = some port ∧
      hostPort p = .ok (host, port) ∧
      (tcpping env p w).1 = .ok (verdict (env.dial "tcp" (JoinHostPort host port))) ∧
      (tcpping env p w).2.trace = w.trace ++ Event.dial "tcp" (JoinHostPort host port) :: out ∧
      ∀ e ∈ out, ∃ line, e = Event.print line := by
  obtain ⟨host, port, h2, hl, hhp⟩ := hostPort_ok_of_length p (by omega)
  obtain ⟨hv, _, out, htr, hout⟩ := tcpping_of_hostPort env p w host port hhp
  exact ⟨host, port, out, h2, by rw [List.getLast?_eq_getElem?]; exact hl, hhp, hv, htr, hout⟩

theorem tcpping_dials_segment_two_and_last_witness :
    4 ≤ (Split (Peer.mk "/ip4/203.0.113.5/tcp/3000" "id").Address '/').length ∧
    ∃ host port out,
      (Split (Peer.mk "/ip4/203.0.113.5/tcp/3000" "id").Address '/')[2]? = some host ∧
      (Split (Peer.mk "/ip4/203.0.113.5/tcp/3000" "id").Address '/').getLast? = some port ∧
      hostPort ⟨"/ip4/203.0.113.5/tcp/3000", "id"⟩ = .ok (host, port) ∧
      (tcpping demoEnv ⟨"/ip4/203.0.113.5/tcp/3000", "id"⟩ demoWorld).1 =
        .ok (verdict (demoEnv.dial "tcp" (JoinHostPort host port))) ∧
      (tcpping demoEnv ⟨"/ip4/203.0.113.5/tcp/3000", "id"⟩ demoWorld).2.trace =
        demoWorld.trace ++ Event.dial "tcp" (JoinHostPort host port) :: out ∧
      ∀ e ∈ out, ∃ line, e = Event.print line :=
  ⟨by decide, tcpping_dials_segment_two_and_last demoEnv ⟨"/ip4/203.0.113.5/tcp/3000", "id"⟩
    demoWorld (by decide)⟩

/-- C2: when the scrape yields candidates on every one of which `tcpping`
returns `false` (the empty list included), `main` ends in `log.Fatal` with
`empty peers`, performs nothing after the probing loop, attempts no write, and
leaves every file, the configuration file among them, as it was. -/
theorem main_no_reachable_peers (env : Env) (flags : Flags) (w : World)
    (workingPeers : List Peer)
    (hs : (scrapeWorkingPeers env flags.scrapeFrom
      (w.emit (.print ("# Scraping peers from " ++ flags.scrapeFrom ++ "\n")))).1 =
        .ok workingPeers)
    (hp : ∀ p ∈ workingPeers, ∀ w1, (tcpping env p w1).1 = .ok false) :
    (main env flags w).1 = .fail (.fatal "empty peers") ∧
      (main env flags w).2 =
        (probeLoop env workingPeers []
          ((scrapeWorkingPeers env flags.scrapeFrom
            (w.emit (.print ("# Scraping peers from " ++ flags.scrapeFrom ++ "\n")))).2.emit
              (.print "# Connecting to peers\n"))).2 ∧
      NothingWritten w (main env flags w).2 ∧
      (main env flags w).2.files flags.nodeConfigFile = w.files flags.nodeConfigFile := by
  have hloop : ∀ w1, (probeLoop env workingPeers [] w1).1 = .ok [] := by
    intro w1
    have := probeLoop_filter env (fun _ => false) workingPeers hp [] w1
    simpa using this
  have hw0 : NothingWritten w
      (w.emit (.print ("# Scraping peers from " ++ flags.scrapeFrom ++ "\n"))) :=
    nothingWritten_emit _ _ (fun _ _ hc => by cases hc)
  have hsc := scrapeWorkingPeers_nothingWritten env flags.scrapeFrom
    (w.emit (.print ("# Scraping peers from " ++ flags.scrapeFrom ++ "\n")))
  rcases hres : scrapeWorkingPeers env flags.scrapeFrom
    (w.emit (.print ("# Scraping peers from " ++ flags.scrapeFrom ++ "\n"))) with ⟨r, w1⟩
  rw [hres] at hs hsc
  simp only at hs
  subst hs
  have hw2 : NothingWritten w1 (w1.emit (.print "# Connecting to peers\n")) :=
    nothingWritten_emit _ _ (fun _ _ hc => by cases hc)
  have hpl := probeLoop_nothingWritten env workingPeers []
    (w1.emit (.print "# Connecting to peers\n"))
  have hl := hloop (w1.emit (.print "# Connecting to peers\n"))
  rcases hres2 : probeLoop env workingPeers [] (w1.emit (.print "# Connecting to peers\n"))
    with ⟨r2, w3⟩
  rw [hres2] at hpl hl
  simp only at hl
  subst hl
  have hmain : main env flags w = (.fail (.fatal "empty peers"), w3) := by
    simp only [main, hres, hres2]
    simp
  have hnw : NothingWritten w w3 := (hw0.trans hsc).trans (hw2.trans hpl)
  rw [hmain]
  exact ⟨rfl, rfl, hnw, by rw [hnw.1]⟩

theorem main_no_reachable_peers_witness :
    ((scrapeWorkingPeers demoEnv "dead.txt"
      (demoWorld.emit (.print ("# Scraping peers from " ++ "dead.txt" ++ "\n")))).1 =
        .ok [⟨"/ip4/127.0.0.1/tcp/65000", "deadbeef"⟩]) ∧
    (main demoEnv { scrapeFrom := "dead.txt" } demoWorld).1 = .fail (.fatal "empty peers") ∧
    (main demoEnv { scrapeFrom := "dead.txt" } demoWorld).2.files "node-config.yaml" =
      demoWorld.files "node-config.yaml" := by
  have hs : (scrapeWorkingPeers demoEnv "dead.txt"
      (demoWorld.emit (.print ("# Scraping peers from " ++ "dead.txt" ++ "\n")))).1 =
        .ok [⟨"/ip4/127.0.0.1/tcp/65000", "deadbeef"⟩] := by decide
  have hp : ∀ p ∈ [(⟨"/ip4/127.0.0.1/tcp/65000", "deadbeef"⟩ : Peer)],
      ∀ w1, (tcpping demoEnv p w1).1 = .ok false := by
    intro p hp w1
    rw [List.mem_singleton.mp hp]
    rfl
  have h := main_no_reachable_peers demoEnv { scrapeFrom := "dead.txt" } demoWorld _ hs hp
  exact ⟨hs, h.1, h.2.2.2⟩

/-! ## The configuration update -/

/-- C5: for a configuration whose `p2p` entry is a mapping, the tree that
`updateTrustedPeers` hands to the encoder agrees with the loaded tree on every
top-level key other than `p2p`, its `p2p` mapping agrees with the loaded one on
every key other than `trusted_peers`, the top-level keys are the same, and the
keys of `p2p` are the same but possibly for an added `trusted_peers`. -/
theorem updateTrustedPeers_frame (env : Env) (nodeConfigFile : String) (ps : List Peer)
    (w : World) (yamlFile : String) (y : Doc) (m : List (Scalar × Value))
    (hr : w.files nodeConfigFile = some yamlFile) (hu : env.unmarshalDoc yamlFile = .ok y)
    (hm : lookup "p2p" y = some (.map m)) :
    ∃ y1 m1,
      updateTrustedPeers env nodeConfigFile ps w =
        marshalAndWrite env nodeConfigFile y1 (w.emit (.readFile nodeConfigFile)) ∧
      lookup "p2p" y1 = some (.map m1) ∧
      (∀ k, k ≠ "p2p" → lookup k y1 = lookup k y) ∧
      (∀ k, k ≠ Scalar.str "trusted_peers" → lookup k m1 = lookup k m) ∧
      y1.map Prod.fst = y.map Prod.fst ∧
      (m1.map Prod.fst = m.map Prod.fst ∨
        m1.map Prod.fst = m.map Prod.fst ++ [Scalar.str "trusted_peers"]) := by
  refine ⟨assign "p2p" (.map (assign (.str "trusted_peers") (.peers ps) m)) y,
    assign (.str "trusted_peers") (.peers ps) m,
    updateTrustedPeers_of_map env nodeConfigFile ps w yamlFile y m hr hu hm,
    lookup_assign_self _ _ _, ?_, ?_, ?_, assign_keys _ _ _⟩
  · intro k hk
    exact lookup_assign_other _ _ _ _ hk
  · intro k hk
    exact lookup_assign_other _ _ _ _ hk
  · exact assign_keys_of_present _ _ _ (by rw [hm]; rfl)

/-- C6: for a configuration whose `p2p` entry is a mapping, a successful
`updateTrustedPeers` leaves in the file the encoding of a tree whose
`p2p.trusted_peers` is exactly the given peer sequence, whatever was there before. -/
theorem updateTrustedPeers_overwrites (env : Env) (nodeConfigFile : String) (ps : List Peer)
    (w : World) (yamlFile : String) (y : Doc) (m : List (Scalar × Value))
    (hr : w.files nodeConfigFile = some yamlFile) (hu : env.unmarshalDoc yamlFile = .ok y)
    (hm : lookup "p2p" y = some (.map m))
    (hok : (updateTrustedPeers env nodeConfigFile ps w).1 = .ok ()) :
    ∃ y1 m1 b,
      assignTrustedPeers y ps = .ok y1 ∧
      lookup "p2p" y1 = some (.map m1) ∧
      lookup (Scalar.str "trusted_peers") m1 = some (.peers ps) ∧
      env.marshalDoc y1 = .ok b ∧
      (updateTrustedPeers env nodeConfigFile ps w).2.files nodeConfigFile = some b := by
  have hupd := updateTrustedPeers_of_map env nodeConfigFile ps w yamlFile y m hr hu hm
  rw [hupd] at hok ⊢
  cases hmar : env.marshalDoc
      (assign "p2p" (.map (assign (.str "trusted_peers") (.peers ps) m)) y) with
  | error err =>
    simp only [marshalAndWrite, hmar] at hok
    cases hok
  | ok b =>
    refine ⟨_, assign (.str "trusted_peers") (.peers ps) m, b,
      assignTrustedPeers_of_map y ps m hm, lookup_assign_self _ _ _, lookup_assign_self _ _ _,
      hmar, ?_⟩
    simp only [marshalAndWrite, hmar] at hok ⊢
    cases hwr : env.writeFile nodeConfigFile b with
    | failed err left =>
      rw [hwr] at hok
      cases hok
    | done => simp

theorem updateTrustedPeers_frame_witness :
    demoWorld.files "node-config.yaml" = some "cfg" ∧
    demoEnv.unmarshalDoc "cfg" = .ok demoDoc ∧
    lookup "p2p" demoDoc = some (.map demoP2p) ∧
    ∃ y1 m1,
      updateTrustedPeers demoEnv "node-config.yaml" [⟨"/ip4/127.0.0.1/tcp/3000", "a"⟩]
          demoWorld =
        marshalAndWrite demoEnv "node-config.yaml" y1
          (demoWorld.emit (.readFile "node-config.yaml")) ∧
      lookup "p2p" y1 = some (.map m1) ∧
      (∀ k, k ≠ "p2p" → lookup k y1 = lookup k demoDoc) ∧
      (∀ k, k ≠ Scalar.str "trusted_peers" → lookup k m1 = lookup k demoP2p) ∧
      y1.map Prod.fst = demoDoc.map Prod.fst ∧
      (m1.map Prod.fst = demoP2p.map Prod.fst ∨
        m1.map Prod.fst = demoP2p.map Prod.fst ++ [Scalar.str "trusted_peers"]) :=
  ⟨rfl, rfl, rfl, updateTrustedPeers_frame demoEnv "node-config.yaml"
    [⟨"/ip4/127.0.0.1/tcp/3000", "a"⟩] demoWorld "cfg" demoDoc demoP2p rfl rfl rfl⟩

theorem updateTrustedPeers_overwrites_witness :
    lookup (Scalar.str "trusted_peers") demoP2p = some (.seq []) ∧
    (updateTrustedPeers demoEnv "node-config.yaml" [⟨"/ip4/127.0.0.1/tcp/3000", "a"⟩]
      demoWorld).1 = .ok () ∧
    ∃ y1 m1 b,
      assignTrustedPeers demoDoc [⟨"/ip4/127.0.0.1/tcp/3000", "a"⟩] = .ok y1 ∧
      lookup "p2p" y1 = some (.map m1) ∧
      lookup (Scalar.str "trusted_peers") m1 =
        some (.peers [⟨"/ip4/127.0.0.1/tcp/3000", "a"⟩]) ∧
      demoEnv.marshalDoc y1 = .ok b ∧
      (updateTrustedPeers demoEnv "node-config.yaml" [⟨"/ip4/127.0.0.1/tcp/3000", "a"⟩]
        demoWorld).2.files "node-config.yaml" = some b :=
  ⟨rfl, by decide, updateTrustedPeers_overwrites demoEnv "node-config.yaml"
    [⟨"/ip4/127.0.0.1/tcp/3000", "a"⟩] demoWorld "cfg" demoDoc demoP2p rfl rfl rfl
    (by decide)⟩

/-- C7: when the decoded configuration has no `p2p` key, or binds `p2p` to
something that is not a mapping, `updateTrustedPeers` ends in a panic raised by
the type assertion of line 107, right after the file was read: nothing is encoded,
no write is attempted, and the configuration file holds what it held. -/
theorem updateTrustedPeers_without_p2p_mapping (env : Env) (nodeConfigFile : String)
    (ps : List Peer) (w : World) (yamlFile : String) (y : Doc)
    (hr : w.files nodeConfigFile = some yamlFile) (hu : env.unmarshalDoc yamlFile = .ok y)
    (hno : ∀ m, lookup "p2p" y ≠ some (.map m)) :
    ∃ msg,
      updateTrustedPeers env nodeConfigFile ps w =
        (.fail (.panic msg), w.emit (.readFile nodeConfigFile)) ∧
      logFatal (.panic msg) = .panic msg ∧
      NothingWritten w (updateTrustedPeers env nodeConfigFile ps w).2 ∧
      (updateTrustedPeers env nodeConfigFile ps w).2.files nodeConfigFile = some yamlFile := by
  have hr1 : (w.emit (.readFile nodeConfigFile)).files nodeConfigFile = some yamlFile := hr
  have hnw : NothingWritten w (w.emit (.readFile nodeConfigFile)) :=
    nothingWritten_emit _ _ (fun _ _ hc => by cases hc)
  have hassign : ∃ msg, assignTrustedPeers y ps = .fail (.panic msg) := by
    unfold assignTrustedPeers
    cases hl : lookup "p2p" y with
    | none => exact ⟨_, rfl⟩
    | some v =>
      cases v with
      | map m => exact absurd hl (hno m)
      | scalar sc => exact ⟨_, rfl⟩
      | seq xs => exact ⟨_, rfl⟩
      | peers qs => exact ⟨_, rfl⟩
  obtain ⟨msg, hmsg⟩ := hassign
  have hupd : updateTrustedPeers env nodeConfigFile ps w =
      (.fail (.panic msg), w.emit (.readFile nodeConfigFile)) := by
    simp only [updateTrustedPeers, hr1, hu, hmsg]
  refine ⟨msg, hupd, rfl, ?_, ?_⟩
  · rw [hupd]; exact hnw
  · rw [hupd]; exact hr1

theorem updateTrustedPeers_without_p2p_mapping_witness :
    demoWorld.files "bad-config.yaml" = some "nop2p" ∧
    demoEnv.unmarshalDoc "nop2p" = .ok [("log", .scalar (.str "info"))] ∧
    (∀ m, lookup "p2p" ([("log", .scalar (.str "info"))] : Doc) ≠ some (.map m)) ∧
    ∃ msg,
      updateTrustedPeers demoEnv "bad-config.yaml" [⟨"/ip4/127.0.0.1/tcp/3000", "a"⟩]
          demoWorld =
        (.fail (.panic msg), demoWorld.emit (.readFile "bad-config.yaml")) ∧
      logFatal (.panic msg) = .panic msg ∧
      NothingWritten demoWorld (updateTrustedPeers demoEnv "bad-config.yaml"
        [⟨"/ip4/127.0.0.1/tcp/3000", "a"⟩] demoWorld).2 ∧
      (updateTrustedPeers demoEnv "bad-config.yaml" [⟨"/ip4/127.0.0.1/tcp/3000", "a"⟩]
        demoWorld).2.files "bad-config.yaml" = some "nop2p" :=
  ⟨rfl, rfl, (fun _ hc => by cases hc),
    updateTrustedPeers_without_p2p_mapping demoEnv "bad-config.yaml"
      [⟨"/ip4/127.0.0.1/tcp/3000", "a"⟩] demoWorld "nop2p" [("log", .scalar (.str "info"))]
      rfl rfl (fun _ hc => by cases hc)⟩

/-! ## The scrape -/

/-- C9 fails as stated: with two matches of `textarea.form-control`, holding
`first` and `second` in document order, the extracted text is `second`, not the
content of the first match. -/
theorem scrapeText_not_first_match :
    ParseRequestURI demoEnv "https://adapools.org/peers" = none ∧
    demoEnv.httpGet "https://adapools.org/peers" = .ok ⟨200, "200 OK", "<html/>"⟩ ∧
    (∃ doc, demoEnv.newDocumentFromReader "<html/>" = .ok doc ∧
      doc.find "textarea.form-control" = ["first", "second"]) ∧
    (scrapeText demoEnv "https://adapools.org/peers" demoWorld).1 = .ok "second" ∧
    (scrapeText demoEnv "https://adapools.org/peers" demoWorld).1 ≠
      .ok (["first", "second"].head (List.cons_ne_nil _ _)) :=
  ⟨by decide, rfl, ⟨_, rfl, rfl⟩, by decide, by decide⟩

/-- C9 (amended): when the source passes `url.ParseRequestURI`, the page is
fetched with status 200 and parsed, and `textarea.form-control` has at least one
match, the text `scrapeWorkingPeers` extracts is the content of the last match in
document order (the only match, when there is one). -/
theorem scrapeText_takes_last_match (env : Env) (scrapeFrom : String) (w : World)
    (res : Response) (doc : Document)
    (hu : ParseRequestURI env scrapeFrom = none)
    (hg : env.httpGet scrapeFrom = .ok res) (h200 : res.StatusCode = 200)
    (hd : env.newDocumentFromReader res.Body = .ok doc)
    (hne : doc.find "textarea.form-control" ≠ []) :
    (scrapeText env scrapeFrom w).1 = .ok ((doc.find "textarea.form-control").getLast hne) := by
  simp only [scrapeText, hu, hg, h200, hd]
  simp [eachHtml_eq_getLast _ hne]

theorem scrapeText_takes_last_match_witness :
    ParseRequestURI demoEnv "https://adapools.org/peers" = none ∧
    (scrapeText demoEnv "https://adapools.org/peers" demoWorld).1 =
      .ok ((["first", "second"] : List String).getLast (List.cons_ne_nil _ _)) :=
  ⟨by decide, scrapeText_takes_last_match demoEnv "https://adapools.org/peers" demoWorld
    ⟨200, "200 OK", "<html/>"⟩
    ⟨fun sel => if sel = "textarea.form-control" then ["first", "second"] else []⟩
    (by decide) rfl rfl rfl (List.cons_ne_nil _ _)⟩

/-- C10 (as the code behaves): the absolute local path `/tmp/peers.txt` passes
`url.ParseRequestURI`, so `scrapeWorkingPeers` issues an HTTP GET for it and never
reads the file: whatever the environment, the one effect of the call is that GET,
and its result is the same whatever the files hold. -/
theorem scrape_absolute_path_issues_http_get (env : Env) (w : World) :
    ParseRequestURI env "/tmp/peers.txt" = none ∧
      (scrapeWorkingPeers env "/tmp/peers.txt" w).2.trace =
        w.trace ++ [Event.httpGet "/tmp/peers.txt"] ∧
      ∀ files, (scrapeWorkingPeers env "/tmp/peers.txt" { w with files := files }).1 =
        (scrapeWorkingPeers env "/tmp/peers.txt" w).1 := by
  have hu : ParseRequestURI env "/tmp/peers.txt" = none := rfl
  have h := scrapeWorkingPeers_of_accepted env "/tmp/peers.txt" hu
  refine ⟨hu, ?_, fun files => ?_⟩
  · rw [(h w ⟨fun _ => none, []⟩).2]
    rfl
  · exact (h _ w).1

end CheckPeers
